import Mathlib

-- Verification of the ContentProcessor core of the llm-chat-export extension.
-- The HTML parsing facility (DOMParser) and the URL constructor are browser
-- platform services; parsed fragments are therefore supplied as explicit DOM
-- trees, and the URL constructor is modelled from the specification. All other
-- definitions are translated from the ContentProcessor source.

-- String helpers modelling the JavaScript string methods used by the source.
-- All inputs arising in this development are ASCII or BMP text, where these
-- models agree with the JavaScript semantics.

/-- Model of the JavaScript toLowerCase for the ASCII strings used here. -/
def strLower (s : String) : String := ⟨s.data.map Char.toLower⟩

/-- Model of the JavaScript toUpperCase applied to a single character. -/
def capFirst (s : String) : String :=
  match s.data with
  | [] => ""
  | c :: cs => ⟨Char.toUpper c :: cs⟩

def startsList : List Char → List Char → Bool
  | _, [] => true
  | [], _ :: _ => false
  | c :: cs, p :: ps => c == p && startsList cs ps

/-- Model of the JavaScript String.startsWith. -/
def strStarts (s p : String) : Bool := startsList s.data p.data

/-- Model of the JavaScript String.endsWith. -/
def strEnds (s p : String) : Bool := startsList s.data.reverse p.data.reverse

/-- Model of the JavaScript String.trim for the whitespace arising here. -/
def strTrim (s : String) : String :=
  ⟨((s.data.dropWhile Char.isWhitespace).reverse.dropWhile Char.isWhitespace).reverse⟩

/-- Model of the JavaScript String.length for BMP text. -/
def strLen (s : String) : Nat := s.data.length

def hasSub : List Char → List Char → Bool
  | [], p => startsList [] p
  | c :: cs, p => startsList (c :: cs) p || hasSub cs p

/-- Substring occurrence test, used to state containment properties. -/
def containsStr (s p : String) : Bool := hasSub s.data p.data

def splitNlAux : List Char → List Char → List (List Char)
  | [], acc => [acc.reverse]
  | c :: cs, acc => if c == '\n' then acc.reverse :: splitNlAux cs [] else splitNlAux cs (c :: acc)

/-- Model of the JavaScript split on a newline character. -/
def strLines (s : String) : List String := (splitNlAux s.data []).map (fun l => ⟨l⟩)

/-- Model of the global regex replace of a pipe character by a backslash pipe. -/
def escPipe (s : String) : String :=
  ⟨s.data.foldr (fun c acc => (if c == '|' then ['\\', '|'] else [c]) ++ acc) []⟩

/-- Model of the JavaScript Array.join with a separator. -/
def joinSep (sep : String) : List String → String
  | [] => ""
  | [x] => x
  | x :: y :: rest => x ++ sep ++ joinSep sep (y :: rest)

-- JavaScript values reaching the url option: the source distinguishes only
-- strings from non-strings, plus truthiness.

inductive JSVal where
  | str (s : String)
  | nonString (truthy : Bool)
deriving DecidableEq

def jsTruthy : JSVal → Bool
  | .str s => !(s == "")
  | .nonString b => b

def jsValStr : JSVal → String
  | .str s => s
  | .nonString _ => ""

-- URL Validator. The WHATWG URL constructor called by isValidUrl is a browser
-- facility, not repository code.

structure URLParts where
  protocol : String
  hostname : String
deriving DecidableEq

def schemeChar (c : Char) : Bool := c.isAlpha || c.isDigit || c == '+' || c == '-' || c == '.'

def splitAtColon : List Char → Option (List Char × List Char)
  | [] => none
  | c :: cs =>
    if c == ':' then some ([], cs)
    else
      match splitAtColon cs with
      | some p => some (c :: p.1, p.2)
      | none => none

def hostEndCh (c : Char) : Bool := c == '/' || c == ':' || c == '?' || c == '#'

/-- Modelled from the spec: the URL constructor used by isValidUrl is a browser
platform facility absent from the repository; the spec requires that malformed
URLs fail to parse and that parsed URLs expose a scheme and a hostname. This
model covers absolute URLs of the shapes exercised by the specification:
a scheme, optionally followed by a double-slash authority whose hostname runs
to the next delimiter and is lower-cased. -/
def parseURL (s : String) : Option URLParts :=
  match splitAtColon s.data with
  | none => none
  | some (sch, rest) =>
    match sch with
    | [] => none
    | c0 :: _ =>
      if !(c0.isAlpha && sch.all schemeChar) then none
      else
        match rest with
        | '/' :: '/' :: r2 =>
          match r2.takeWhile (fun c => !(hostEndCh c)) with
          | [] => none
          | h => some ⟨⟨sch.map Char.toLower⟩ ++ ":", ⟨h.map Char.toLower⟩⟩
        | _ => some ⟨⟨sch.map Char.toLower⟩ ++ ":", ""⟩

def allowedDomains : List String :=
  ["chat.openai.com", "chatgpt.com", "claude.ai", "gemini.google.com", "x.com", "grok.com"]

/-- Translation of ContentProcessor.isValidUrl: false for non-strings, false on
parse failure, otherwise the protocol must be https or http and the hostname
must equal an allow-listed domain or end in a dot followed by one. -/
def isValidUrl : JSVal → Bool
  | .nonString _ => false
  | .str s =>
    match parseURL s with
    | none => false
    | some u =>
      ((u.protocol == "https:") || (u.protocol == "http:")) &&
        allowedDomains.any (fun d => (u.hostname == d) || strEnds u.hostname ("." ++ d))

-- The DOM model: a first-child next-sibling tree, the shape the browser parser
-- hands to the ContentProcessor. Attribute names and values are strings.

inductive Dom where
  | nil
  | text (s : String) (next : Dom)
  | elem (tag : String) (attrs : List (String × String)) (child : Dom) (next : Dom)
deriving DecidableEq

/-- Concatenation of all text nodes in document order, the DOM textContent. -/
def textContent : Dom → String
  | .nil => ""
  | .text s n => s ++ textContent n
  | .elem _ _ c n => textContent c ++ textContent n

/-- Model of querySelectorAll for a tag list: all matching descendant elements
in document order, each represented by its child chain. -/
def collectTag (tags : List String) : Dom → List Dom
  | .nil => []
  | .text _ n => collectTag tags n
  | .elem t _ c n =>
    (if tags.contains (strLower t) then [c] else []) ++ collectTag tags c ++ collectTag tags n

-- Sanitizer: translation of ContentProcessor.sanitizeDocument. Script and
-- style elements are removed with their descendants; every remaining element
-- loses attributes whose name starts with on case-insensitively, and loses
-- href, src, action, formaction and data attributes whose lower-cased trimmed
-- value starts with a dangerous scheme. getAttribute matches attribute names
-- case-insensitively in HTML documents, hence the strLower on the name.

def urlAttrNames : List String := ["href", "src", "action", "formaction", "data"]

def dangerousSchemes : List String := ["javascript:", "data:", "vbscript:", "file:"]

/-- Keep condition for one attribute under sanitizeDocument. The source skips
the dangerous-scheme check for empty attribute values, which are falsy. -/
def keepAttr (p : String × String) : Bool :=
  !(strStarts (strLower p.1) "on") &&
    !(urlAttrNames.contains (strLower p.1) && !(p.2 == "") &&
      dangerousSchemes.any (fun d => strStarts (strTrim (strLower p.2)) d))

/-- Translation of ContentProcessor.sanitizeDocument over the parsed tree. -/
def sanitize : Dom → Dom
  | .nil => .nil
  | .text s n => .text s (sanitize n)
  | .elem t a c n =>
    if (strLower t == "script") || (strLower t == "style") then sanitize n
    else .elem t (a.filter keepAttr) (sanitize c) (sanitize n)

-- Text Flattener: translation of the four passes of htmlToText. Each pass
-- replaces matched elements by text nodes; processing is in document order,
-- so an element nested inside a replaced one is discarded with it, which the
-- top-down recursion below reproduces.

/-- Translation of ContentProcessor.tableToText: one line per tr, cells joined
by tabs, the whole wrapped in a leading and a trailing newline. -/
def tableToText (c : Dom) : String :=
  "\n" ++
    String.join ((collectTag ["tr"] c).map (fun row =>
      joinSep "\t" ((collectTag ["td", "th"] row).map (fun cell => strTrim (textContent cell))) ++
        "\n")) ++
    "\n"

/-- Translation of ContentProcessor.processTablesForText. -/
def procTables : Dom → Dom
  | .nil => .nil
  | .text s n => .text s (procTables n)
  | .elem t a c n =>
    if strLower t == "table" then .text (tableToText c) (procTables n)
    else .elem t a (procTables c) (procTables n)

/-- Translation of ContentProcessor.processCodeBlocksForText. -/
def procCode : Dom → Dom
  | .nil => .nil
  | .text s n => .text s (procCode n)
  | .elem t a c n =>
    if (strLower t == "pre") || (strLower t == "code") then
      .text ("\n" ++ textContent c ++ "\n") (procCode n)
    else .elem t a (procCode c) (procCode n)

/-- Rendering of the list items of one ul or ol, with the 1-based counter the
source keeps while iterating. The source wraps the text extraction of each item
in a try catch; an item whose extraction fails, modelled by none, contributes
nothing while later items are still rendered with their original index. -/
def liLines (isOrdered : Bool) : Nat → List (Option String) → String
  | _, [] => ""
  | i, some s :: rest =>
    (if isOrdered then Nat.repr (i + 1) ++ ". " else "• ") ++ strTrim s ++ "\n" ++
      liLines isOrdered (i + 1) rest
  | i, none :: rest => liLines isOrdered (i + 1) rest

/-- The replacement text for one list: the item lines wrapped in a leading and
a trailing newline. -/
def listBlock (isOrdered : Bool) (items : List (Option String)) : String :=
  "\n" ++ liLines isOrdered 0 items ++ "\n"

/-- Translation of ContentProcessor.processListsForText. -/
def procLists : Dom → Dom
  | .nil => .nil
  | .text s n => .text s (procLists n)
  | .elem t a c n =>
    if (strLower t == "ul") || (strLower t == "ol") then
      .text
        (listBlock (strLower t == "ol")
          ((collectTag ["li"] c).map (fun li => some (textContent li))))
        (procLists n)
    else .elem t a (procLists c) (procLists n)

def sepBlockTags : List String :=
  ["div", "p", "h1", "h2", "h3", "h4", "h5", "h6", "blockquote", "section", "article"]

def containerTags : List String :=
  ["div", "span", "section", "article", "header", "footer", "nav", "aside", "main"]

def flattenBlockTags : List String :=
  ["div", "p", "h1", "h2", "h3", "h4", "h5", "h6", "blockquote", "section", "article",
    "header", "footer", "nav", "aside", "main"]

/-- Translation of ContentProcessor.shouldSeparateElements; the texts passed in
are already trimmed, as in the caller. -/
def shouldSeparateElements (curTag nextTag curText nextText : String) : Bool :=
  if sepBlockTags.contains (strLower curTag) || sepBlockTags.contains (strLower nextTag) then true
  else if (strLower curTag == "span") && (strLower nextTag == "span") &&
      decide (10 < strLen curText) && decide (10 < strLen nextText) then true
  else if (strLower curTag == "button") || (strLower nextTag == "button") then true
  else false

/-- The per-pair decision of processDirectChildren: pairs where either trimmed
text is empty or shorter than three characters are skipped. -/
def sepDecision (prevTag prevText curTag curText : String) : Bool :=
  let ct := strTrim prevText
  let nt := strTrim curText
  if (ct == "") || (nt == "") || decide (strLen ct < 3) || decide (strLen nt < 3) then false
  else shouldSeparateElements prevTag curTag ct nt

/-- Translation of the container half of addSpacingBetweenSiblings: every
container element found by querySelectorAll has processDirectChildren applied,
parents before descendants, so each decision reads the text content the
children had before their own insertions. The prev argument carries the tag and
text of the previous element sibling; insertions are text nodes only. -/
def procContainersGo (insertHere : Bool) (prev : Option (String × String)) : Dom → Dom
  | .nil => .nil
  | .text s n => .text s (procContainersGo insertHere prev n)
  | .elem t a c n =>
    let done := procContainersGo (containerTags.contains (strLower t)) none c
    let rest := procContainersGo insertHere (some (t, textContent c)) n
    let node := Dom.elem t a done rest
    match prev with
    | some p => if insertHere && sepDecision p.1 p.2 t (textContent c) then .text "\n" node else node
    | none => node

/-- Translation of the final processDirectChildren call on the root container,
which runs after every nested container was processed and therefore reads the
already updated text content of the children. -/
def insertTop (prev : Option (String × String)) : Dom → Dom
  | .nil => .nil
  | .text s n => .text s (insertTop prev n)
  | .elem t a c n =>
    let rest := insertTop (some (t, textContent c)) n
    match prev with
    | some p =>
      if sepDecision p.1 p.2 t (textContent c) then .text "\n" (.elem t a c rest)
      else .elem t a c rest
    | none => .elem t a c rest

/-- Translation of ContentProcessor.addSpacingBetweenSiblings. -/
def addSpacing (d : Dom) : Dom := insertTop none (procContainersGo false none d)

/-- Translation of the br replacement step of processBlockElementsForText. -/
def procBr : Dom → Dom
  | .nil => .nil
  | .text s n => .text s (procBr n)
  | .elem t a c n =>
    if strLower t == "br" then .text "\n" (procBr n)
    else .elem t a (procBr c) (procBr n)

/-- Translation of the block replacement step of processBlockElementsForText:
a block element with non-blank text becomes a text node of its trimmed text
wrapped in newlines; blocks nested inside one replaced earlier are dropped with
it, which the top-down recursion reproduces. -/
def procBlocks : Dom → Dom
  | .nil => .nil
  | .text s n => .text s (procBlocks n)
  | .elem t a c n =>
    if flattenBlockTags.contains (strLower t) then
      let s := strTrim (textContent c)
      if !(s == "") then .text ("\n" ++ s ++ "\n") (procBlocks n)
      else .elem t a (procBlocks c) (procBlocks n)
    else .elem t a (procBlocks c) (procBlocks n)

/-- Translation of ContentProcessor.htmlToText on a parsed fragment: sanitize,
then the table, code, list and block passes, then the text content. -/
def htmlToText (d : Dom) : String :=
  textContent (procBlocks (procBr (addSpacing (procLists (procCode (procTables (sanitize d)))))))

-- Document Assembler: translation of processConversation, toText and
-- messageToText. Message content is a parsed fragment; parsing is external.

structure Message where
  role : String
  content : Dom
deriving DecidableEq

structure Options where
  includeTimestamps : Bool
  includeMetadata : Bool
  platform : String
  url : JSVal
deriving DecidableEq

/-- Translation of ContentProcessor.getRoleDisplay. -/
def roleDisplay (role : String) : String :=
  if role == "user" then "User"
  else if role == "assistant" then "Assistant"
  else if role == "system" then "System"
  else if role == "claude" then "Claude"
  else if role == "gpt" then "ChatGPT"
  else if role == "gemini" then "Gemini"
  else if role == "grok" then "Grok"
  else capFirst role

/-- Translation of ContentProcessor.messageToText: role header line, then the
flattened content. The options argument is passed along but never consulted. -/
def messageToText (m : Message) (opts : Options) : String :=
  roleDisplay m.role ++ ":\n" ++ htmlToText m.content

/-- The forEach loop of toText: blocks joined by a blank-line separator added
after every block except the last. -/
def toTextGo (opts : Options) : List Message → String
  | [] => ""
  | [m] => messageToText m opts
  | m :: m2 :: rest => messageToText m opts ++ "\n\n" ++ toTextGo opts (m2 :: rest)

/-- The optional chat url preamble of toText: present exactly when the url
option is truthy and passes isValidUrl. -/
def urlPreamble (opts : Options) : String :=
  if jsTruthy opts.url && isValidUrl opts.url then "chat url: " ++ jsValStr opts.url ++ "\n\n"
  else ""

/-- Translation of ContentProcessor.toText. -/
def toText (data : List Message) (opts : Options) : String :=
  strTrim (urlPreamble opts ++ toTextGo opts data)

/-- Translation of ContentProcessor.processConversation, which always renders
through toText whatever the format argument says. -/
def processConversation (data : List Message) (format : String) (opts : Options) : String :=
  toText data opts

-- Markdown Renderer: translation of htmlToMarkdown, processElementToMarkdown,
-- the markdownConverters table, tableToMarkdown and preToMarkdown.

/-- Model of getAttribute with the case-insensitive name matching of HTML
documents. -/
def getAttr (attrs : List (String × String)) (name : String) : Option String :=
  (attrs.find? (fun p => strLower p.1 == name)).map (fun p => p.2)

def isWordCh (c : Char) : Bool := c.isAlphanum || c == '_'

/-- Model of the regex search for language dash or lang dash followed by word
characters: leftmost match, the longer alternative attempted first. -/
def findLangClass : List Char → Option String
  | [] => none
  | c :: cs =>
    if startsList (c :: cs) ("language-".data) && !(((c :: cs).drop 9).takeWhile isWordCh).isEmpty then
      some ⟨((c :: cs).drop 9).takeWhile isWordCh⟩
    else if startsList (c :: cs) ("lang-".data) && !(((c :: cs).drop 5).takeWhile isWordCh).isEmpty then
      some ⟨((c :: cs).drop 5).takeWhile isWordCh⟩
    else findLangClass cs

/-- Translation of ContentProcessor.detectCodeLanguage. -/
def detectCodeLanguage (attrs : List (String × String)) : String :=
  let cls := match getAttr attrs "class" with
    | some v => v
    | none => ""
  match findLangClass cls.data with
  | some l => l
  | none =>
    match getAttr attrs "data-language" with
    | some d => if !(d == "") then d else ""
    | none => ""

/-- One pipe-delimited Markdown row: each cell flattened to text, pipes
escaped, then trimmed, as in tableToMarkdown. -/
def tmRow (row : Dom) : String :=
  "| " ++
    joinSep " | "
      ((collectTag ["td", "th"] row).map (fun cell => strTrim (escPipe (htmlToText cell)))) ++
    " |\n"

/-- The header separator emitted after the first row when it has cells. -/
def tmSep (row : Dom) : String :=
  match collectTag ["td", "th"] row with
  | [] => ""
  | cells => "| " ++ joinSep " | " (cells.map (fun _ => "---")) ++ " |\n"

/-- Translation of ContentProcessor.tableToMarkdown. -/
def tableToMarkdown (c : Dom) : String :=
  match collectTag ["tr"] c with
  | [] => ""
  | r0 :: rest => "\n" ++ tmRow r0 ++ tmSep r0 ++ String.join (rest.map tmRow) ++ "\n"

/-- Translation of ContentProcessor.preToMarkdown: the first descendant code
element if any, else the pre itself, fenced with the detected language. -/
def preToMarkdown (attrs : List (String × String)) (c : Dom) : String :=
  let content := match (collectTag ["code"] c).head? with
    | some codeChildren => textContent codeChildren
    | none => textContent c
  "\n```" ++ detectCodeLanguage attrs ++ "\n" ++ content ++ "\n```\n\n"

/-- Translation of the markdownConverters dispatch table. The index argument is
the position among the element children of the parent, and parentTag is the
lower-cased tag of the parent element, as computed by processElementToMarkdown. -/
def mdConvert (tag inner : String) (attrs : List (String × String)) (idx : Nat)
    (parentTag : String) : String :=
  if tag == "h1" then "# " ++ inner ++ "\n\n"
  else if tag == "h2" then "## " ++ inner ++ "\n\n"
  else if tag == "h3" then "### " ++ inner ++ "\n\n"
  else if tag == "h4" then "#### " ++ inner ++ "\n\n"
  else if tag == "h5" then "##### " ++ inner ++ "\n\n"
  else if tag == "h6" then "###### " ++ inner ++ "\n\n"
  else if tag == "p" then inner ++ "\n\n"
  else if tag == "br" then "\n"
  else if (tag == "strong") || (tag == "b") then "**" ++ inner ++ "**"
  else if (tag == "em") || (tag == "i") then "*" ++ inner ++ "*"
  else if tag == "code" then "`" ++ inner ++ "`"
  else if tag == "a" then
    match getAttr attrs "href" with
    | some h => if !(h == "") then "[" ++ inner ++ "](" ++ h ++ ")" else inner
    | none => inner
  else if tag == "img" then
    let alt := match getAttr attrs "alt" with
      | some av => if !(av == "") then av else inner
      | none => inner
    match getAttr attrs "src" with
    | some sv => if !(sv == "") then "![" ++ alt ++ "](" ++ sv ++ ")" else "[Image: " ++ alt ++ "]"
    | none => "[Image: " ++ alt ++ "]"
  else if tag == "blockquote" then
    joinSep "\n" ((strLines inner).map (fun l => "> " ++ l)) ++ "\n\n"
  else if (tag == "ul") || (tag == "ol") then inner ++ "\n"
  else if tag == "li" then
    (if parentTag == "ol" then Nat.repr (idx + 1) ++ ". " else "- ") ++ inner ++ "\n"
  else inner

/-- Translation of ContentProcessor.processElementToMarkdown: text nodes pass
through, tables and pre blocks are special-cased, other elements go through the
converter table with their children rendered first; the element index counts
only element siblings. -/
def mdChain (parentTag : String) (idx : Nat) : Dom → String
  | .nil => ""
  | .text s n => s ++ mdChain parentTag idx n
  | .elem t a c n =>
    let tag := strLower t
    let piece :=
      if tag == "table" then tableToMarkdown c
      else if tag == "pre" then preToMarkdown a c
      else mdConvert tag (mdChain tag 0 c) a idx parentTag
    piece ++ mdChain parentTag (idx + 1) n

/-- Translation of ContentProcessor.htmlToMarkdown: sanitize, then render the
children of the temporary div container. -/
def htmlToMarkdown (d : Dom) : String := mdChain "div" 0 (sanitize d)

-- State-passing versions of the assembler, exposing that the source never
-- writes to the role or content field of any caller-supplied record: the
-- second component is the message records as they stand after the call.

/-- messageToText with the record it read threaded through: the source only
reads message.role and message.content, so the record after the call is the
record it was handed. -/
def messageToTextRun (m : Message) (opts : Options) : String × Message :=
  (roleDisplay m.role ++ ":\n" ++ htmlToText m.content, m)

/-- The toText loop with the records threaded through. -/
def toTextGoRun (opts : Options) : List Message → String × List Message
  | [] => ("", [])
  | [m] =>
    let r := messageToTextRun m opts
    (r.1, [r.2])
  | m :: m2 :: rest =>
    let r := messageToTextRun m opts
    let t := toTextGoRun opts (m2 :: rest)
    (r.1 ++ "\n\n" ++ t.1, r.2 :: t.2)

/-- processConversation with the records threaded through. -/
def processConversationRun (data : List Message) (format : String) (opts : Options) :
    String × List Message :=
  let body := toTextGoRun opts data
  (strTrim (urlPreamble opts ++ body.1), body.2)

-- Concrete parse trees: the standard HTML parse of the fragments named by the
-- specification examples, supplied explicitly since parsing is a browser
-- facility. The parser puts tr rows inside an inserted tbody.

def pHi : Dom := .elem "p" [] (.text "Hi" .nil) .nil

def pYo : Dom := .elem "p" [] (.text "Yo" .nil) .nil

def exC1 : Dom :=
  .elem "script" [] (.text "alert(1)" .nil) (.elem "p" [] (.text "hi" .nil) .nil)

def ulChildren : Dom :=
  .elem "li" [] (.text "a" .nil) (.elem "li" [] (.text "b" .nil) .nil)

def exUL : Dom := .elem "ul" [] ulChildren .nil

def exTableRows : Dom :=
  .elem "tr" [] (.elem "th" [] (.text "A" .nil) .nil)
    (.elem "tr" [] (.elem "td" [] (.text "1" .nil) .nil) .nil)

def exTable : Dom := .elem "table" [] (.elem "tbody" [] exTableRows .nil) .nil

def optsPlain : Options := ⟨false, true, "unknown", .str ""⟩

def optsChatUrl : Options := ⟨false, true, "unknown", .str "https://chatgpt.com/c/1"⟩

-- Safety predicates used to state the sanitizer guarantee.

/-- The property the specification claims of one surviving attribute: its name
does not start with on case-insensitively, and it is not one of the five url
attributes with a dangerous-scheme value. -/
def attrSafe (p : String × String) : Bool :=
  !(strStarts (strLower p.1) "on") &&
    !(urlAttrNames.contains (strLower p.1) &&
      dangerousSchemes.any (fun d => strStarts (strTrim (strLower p.2)) d))

/-- No script or style element anywhere, and every attribute of every element
is attrSafe. -/
def treeSafe : Dom → Bool
  | .nil => true
  | .text _ n => treeSafe n
  | .elem t a c n =>
    !((strLower t == "script") || (strLower t == "style")) && a.all attrSafe &&
      treeSafe c && treeSafe n

theorem keepAttr_attrSafe : ∀ p : String × String, keepAttr p = true → attrSafe p = true := by
  intro ⟨nm, v⟩ h
  by_cases hv : v = ""
  · subst hv
    simp only [keepAttr, attrSafe] at h ⊢
    have hz : dangerousSchemes.any (fun d => strStarts (strTrim (strLower "")) d) = false := by
      decide
    rw [hz] at h ⊢
    simpa using h
  · have hvb : (v == "") = false := by simpa using hv
    simp only [keepAttr, attrSafe, hvb] at h ⊢
    simpa using h

theorem filter_keepAttr_all (a : List (String × String)) :
    (a.filter keepAttr).all attrSafe = true := by
  induction a with
  | nil => rfl
  | cons x xs ih =>
    by_cases h : keepAttr x = true
    · simp [List.filter_cons, h, keepAttr_attrSafe x h, ih]
    · simp only [Bool.not_eq_true] at h
      simp [List.filter_cons, h, ih]

theorem sanitize_safe : ∀ d : Dom, treeSafe (sanitize d) = true := by
  intro d
  induction d with
  | nil => rfl
  | text s n ih => simpa [sanitize, treeSafe] using ih
  | elem t a c n ihc ihn =>
    simp only [sanitize]
    split
    · exact ihn
    · rename_i hcond
      have hc : ((strLower t == "script") || (strLower t == "style")) = false := by
        simpa using hcond
      simp only [treeSafe]
      rw [hc, filter_keepAttr_all, ihc, ihn]
      rfl

theorem strAppend_assoc (a b c : String) : a ++ b ++ c = a ++ (b ++ c) := by
  cases a with
  | mk la =>
    cases b with
    | mk lb =>
      cases c with
      | mk lc =>
        show String.mk (la ++ lb ++ lc) = String.mk (la ++ (lb ++ lc))
        rw [List.append_assoc]

-- Join structure of the toText loop.

theorem toTextGo_eq (opts : Options) (data : List Message) :
    toTextGo opts data = joinSep "\n\n" (data.map (fun m => messageToText m opts)) := by
  induction data with
  | nil => rfl
  | cons m rest ih =>
    cases rest with
    | nil => rfl
    | cons m2 r2 =>
      simp only [toTextGo, List.map, joinSep]
      rw [ih]
      simp only [List.map]

theorem toTextGo_opts (data : List Message) (o1 o2 : Options) :
    toTextGo o1 data = toTextGo o2 data := by
  induction data with
  | nil => rfl
  | cons m rest ih =>
    cases rest with
    | nil => rfl
    | cons m2 r2 =>
      simp only [toTextGo]
      rw [ih]
      rfl

theorem toTextGoRun_eq (opts : Options) (data : List Message) :
    toTextGoRun opts data = (toTextGo opts data, data) := by
  induction data with
  | nil => rfl
  | cons m rest ih =>
    cases rest with
    | nil => rfl
    | cons m2 r2 =>
      simp [toTextGoRun, toTextGo, messageToTextRun, messageToText, ih]

-- The claim theorems.

/-- C1: for every parsed HTML fragment, the sanitized tree contains no script
or style element, no attribute whose name case-insensitively starts with on,
and no href, src, action, formaction or data attribute whose lower-cased
trimmed value starts with javascript, data, vbscript or file schemes; and
rendering the sanitized example fragment with the script and the paragraph to
text or markdown yields a string that contains hi and does not contain alert. -/
theorem c1_sanitizer_guarantee :
    (∀ d : Dom, treeSafe (sanitize d) = true)
  ∧ containsStr (htmlToText exC1) "hi" = true
  ∧ containsStr (htmlToText exC1) "alert" = false
  ∧ containsStr (htmlToMarkdown exC1) "hi" = true
  ∧ containsStr (htmlToMarkdown exC1) "alert" = false :=
  ⟨sanitize_safe, by decide, by decide, by decide, by decide⟩

/-- C2 counterexample: on the single user message with paragraph content Hi
and the chatgpt url, the assembled text is the preamble, the role header, a
blank line, then Hi; in particular it does not start with the preamble
immediately followed by the header and a single newline before Hi, as the
claim states. -/
theorem c2_counterexample :
    toText [⟨"user", pHi⟩] optsChatUrl = "chat url: https://chatgpt.com/c/1\n\nUser:\n\nHi"
  ∧ strStarts (toText [⟨"user", pHi⟩] optsChatUrl)
      "chat url: https://chatgpt.com/c/1\n\nUser:\nHi" = false :=
  ⟨by decide, by decide⟩

/-- C2 amended: assembling the single user message in text mode with the
chatgpt url returns the string starting with the url preamble, immediately
followed by the role header line, a blank line, then Hi: the block-element
flattening wraps the paragraph text in newlines, so a second newline separates
the header from the content. -/
theorem c2_amended :
    toText [⟨"user", pHi⟩] optsChatUrl = "chat url: https://chatgpt.com/c/1\n\nUser:\n\nHi" := by
  decide

/-- C3 counterexample: for the two paragraph messages the assembled document
has two consecutive blank lines between the first message content and the
second role header, refuting the claim that there is exactly one blank line
between consecutive blocks and never two. -/
theorem c3_counterexample :
    strLines (toText [⟨"user", pHi⟩, ⟨"assistant", pYo⟩] optsPlain) =
      ["User:", "", "Hi", "", "", "Assistant:", "", "Yo"] := by
  decide

/-- C3 amended: the assembler joins the rendered message blocks with exactly
the two-newline separator between consecutive blocks and appends nothing after
the last block, then trims; since a rendered block may itself end or begin
with a newline, the visible document can contain more than one blank line
between the texts of consecutive messages. -/
theorem c3_amended (data : List Message) (opts : Options) :
    toText data opts =
      strTrim (urlPreamble opts ++ joinSep "\n\n" (data.map (fun m => messageToText m opts))) := by
  simp only [toText, toTextGo_eq]

/-- C4: isValidUrl returns false for every non-string input and on every parse
failure; for every parsed URL it returns true exactly when the protocol is
https or http and the hostname equals an allow-listed domain or is one of its
subdomains; and the three example inputs behave as claimed. -/
theorem c4_isValidUrl :
    (∀ b, isValidUrl (.nonString b) = false)
  ∧ (∀ s, parseURL s = none → isValidUrl (.str s) = false)
  ∧ (∀ s u, parseURL s = some u →
      (isValidUrl (.str s) = true ↔
        (u.protocol = "https:" ∨ u.protocol = "http:") ∧
          ∃ d, d ∈ allowedDomains ∧ (u.hostname = d ∨ strEnds u.hostname ("." ++ d) = true)))
  ∧ isValidUrl (.str "https://evil.com") = false
  ∧ isValidUrl (.str "https://sub.claude.ai/x") = true
  ∧ isValidUrl (.str "javascript:alert(1)") = false := by
  refine ⟨fun b => rfl, fun s h => by simp [isValidUrl, h], fun s u h => ?_,
    by decide, by decide, by decide⟩
  simp [isValidUrl, h, List.any_eq_true]

/-- C4 witness: the theorem applied at a string with no colon, which fails to
parse, and at a parsed allow-listed https URL. -/
theorem c4_witness :
    isValidUrl (.str "notaurl") = false ∧ isValidUrl (.str "https://claude.ai") = true := by
  constructor
  · exact c4_isValidUrl.2.1 "notaurl" (by decide)
  · exact (c4_isValidUrl.2.2.1 "https://claude.ai" ⟨"https:", "claude.ai"⟩ (by decide)).mpr
      ⟨Or.inl rfl, ⟨"claude.ai", by decide, Or.inl rfl⟩⟩

/-- C5 counterexample: on the example table the markdown output carries a
leading newline, so it is not the claimed string followed only by trailing
blank lines, since any such string starts with the first pipe row. -/
theorem c5_counterexample :
    htmlToMarkdown exTable = "\n| A |\n| --- |\n| 1 |\n\n"
  ∧ strStarts (htmlToMarkdown exTable) "| A |" = false :=
  ⟨by decide, by decide⟩

/-- C5 amended: a table with no rows renders to the empty string; a table with
rows renders one pipe-delimited row per tr with cells flattened, pipes escaped
and trimmed, the separator row directly after the first row, all wrapped in a
leading newline and a trailing blank line; on the example the output is the
claimed string with that leading newline and trailing blank line. -/
theorem c5_amended :
    (∀ c, collectTag ["tr"] c = [] → tableToMarkdown c = "")
  ∧ (∀ c r0 rest, collectTag ["tr"] c = r0 :: rest →
      tableToMarkdown c = "\n" ++ tmRow r0 ++ tmSep r0 ++ String.join (rest.map tmRow) ++ "\n")
  ∧ htmlToMarkdown exTable = "\n| A |\n| --- |\n| 1 |\n\n" := by
  refine ⟨fun c h => ?_, fun c r0 rest h => ?_, by decide⟩
  · simp [tableToMarkdown, h]
  · simp [tableToMarkdown, h]

def wRow : Dom := .elem "td" [] (.text "x" .nil) .nil

/-- C5 witness: the amended theorem applied to an empty table and to a one-row
table. -/
theorem c5_witness :
    tableToMarkdown Dom.nil = ""
  ∧ tableToMarkdown (Dom.elem "tr" [] wRow Dom.nil) =
      "\n" ++ tmRow wRow ++ tmSep wRow ++ String.join (List.map tmRow []) ++ "\n" :=
  ⟨c5_amended.1 Dom.nil (by decide), c5_amended.2.1 (Dom.elem "tr" [] wRow Dom.nil) wRow [] (by decide)⟩

/-- C6: the list pass replaces every ul or ol element with a text block of one
line per li, ordered items prefixed by their 1-based index and a dot, unordered
items by a bullet, wrapped in a leading and a trailing newline; an item whose
text extraction fails contributes nothing while the remaining items are still
rendered with their original indices; and the flattened example list contains
the two bullet lines with no markup left. -/
theorem c6_lists :
    (∀ t a c n, ((strLower t == "ul") || (strLower t == "ol")) = true →
      procLists (.elem t a c n) =
        .text
          (listBlock (strLower t == "ol")
            ((collectTag ["li"] c).map (fun li => some (textContent li))))
          (procLists n))
  ∧ (∀ ord i xs ys,
      liLines ord i (xs ++ none :: ys) = liLines ord i xs ++ liLines ord (i + xs.length + 1) ys)
  ∧ "• a" ∈ strLines (htmlToText exUL)
  ∧ "• b" ∈ strLines (htmlToText exUL)
  ∧ containsStr (htmlToText exUL) "<" = false := by
  refine ⟨fun t a c n h => ?_, fun ord i xs ys => ?_, by decide, by decide, by decide⟩
  · simp [procLists, h]
  · induction xs generalizing i with
    | nil => simp [liLines]
    | cons x xs ih =>
      cases x with
      | none =>
        simp only [List.cons_append, liLines, List.length_cons, List.append_eq]
        rw [ih]
        have h2 : i + 1 + xs.length + 1 = i + (xs.length + 1) + 1 := by omega
        rw [h2]
      | some s =>
        simp only [List.cons_append, liLines, List.length_cons, List.append_eq]
        have h2 : i + 1 + xs.length + 1 = i + (xs.length + 1) + 1 := by omega
        rw [ih, h2, ← strAppend_assoc]

/-- C6 witness: the replacement equation applied to the example list, and the
skip equation applied to a concrete item list with one failing item. -/
theorem c6_witness :
    procLists exUL =
      Dom.text
        (listBlock (strLower "ul" == "ol")
          ((collectTag ["li"] ulChildren).map (fun li => some (textContent li))))
        (procLists Dom.nil)
  ∧ liLines false 0 ([some "a"] ++ none :: [some "b"]) =
      liLines false 0 [some "a"] ++ liLines false (0 + [some "a"].length + 1) [some "b"] :=
  ⟨c6_lists.1 "ul" [] ulChildren Dom.nil (by decide),
   c6_lists.2.1 false 0 [some "a"] [some "b"]⟩

/-- C7: when the url option is not a truthy string passing isValidUrl, the
assembler omits the preamble and produces exactly the output it produces with
an empty url; when the url option is truthy and valid, the output is the
preamble line prepended to the joined message blocks, then trimmed. -/
theorem c7_preamble (data : List Message) (u : JSVal) (opts : Options) :
    ((jsTruthy u && isValidUrl u) = false →
      toText data { opts with url := u } = toText data { opts with url := JSVal.str "" })
  ∧ ((jsTruthy u && isValidUrl u) = true →
      toText data { opts with url := u } =
        strTrim ("chat url: " ++ jsValStr u ++ "\n\n" ++
          toTextGo { opts with url := u } data)) := by
  constructor
  · intro h
    have e1 : ({ opts with url := u } : Options).url = u := rfl
    have e2 : ({ opts with url := JSVal.str "" } : Options).url = JSVal.str "" := rfl
    have e3 : (jsTruthy (JSVal.str "") && isValidUrl (JSVal.str "")) = false := by decide
    simp only [toText, urlPreamble, e1, e2, h, e3, Bool.false_eq_true, if_false]
    rw [toTextGo_opts data { opts with url := u } { opts with url := JSVal.str "" }]
  · intro h
    have e1 : ({ opts with url := u } : Options).url = u := rfl
    simp only [toText, urlPreamble, e1, h, if_true]

/-- C7 witness: the theorem applied with an invalid url, which is dropped, and
with the valid chatgpt url, which is prepended. -/
theorem c7_witness :
    toText [] { optsPlain with url := JSVal.str "https://evil.com" } =
      toText [] { optsPlain with url := JSVal.str "" }
  ∧ toText [] { optsPlain with url := JSVal.str "https://chatgpt.com/c/1" } =
      strTrim ("chat url: " ++ jsValStr (JSVal.str "https://chatgpt.com/c/1") ++ "\n\n" ++
        toTextGo { optsPlain with url := JSVal.str "https://chatgpt.com/c/1" } []) :=
  ⟨(c7_preamble [] (JSVal.str "https://evil.com") optsPlain).1 (by decide),
   (c7_preamble [] (JSVal.str "https://chatgpt.com/c/1") optsPlain).2 (by decide)⟩

/-- C8: for every conversation and options, the output of processConversation
is identical whether includeTimestamps is true or false; the option is never
consulted by the rendering pipeline. -/
theorem c8_timestamps_inert (data : List Message) (format : String) (opts : Options) :
    processConversation data format { opts with includeTimestamps := true } =
      processConversation data format { opts with includeTimestamps := false } := by
  simp only [processConversation, toText]
  rw [toTextGo_opts data { opts with includeTimestamps := true }
    { opts with includeTimestamps := false }]
  rfl

/-- C9: the assembler only reads the role and content fields of the supplied
records; threading the records through the call returns them unchanged, and
the computed document is the one processConversation returns. -/
theorem c9_frame (data : List Message) (format : String) (opts : Options) :
    (processConversationRun data format opts).2 = data
  ∧ (processConversationRun data format opts).1 = processConversation data format opts := by
  have h := toTextGoRun_eq opts data
  constructor
  · simp [processConversationRun, h]
  · simp [processConversationRun, processConversation, toText, h]

/-- C10: processConversation returns the same string for every value of its
format argument, and that string is always the plain-text rendering toText;
the markdown renderer is never invoked. -/
theorem c10_format_ignored (data : List Message) (fmtA fmtB : String) (opts : Options) :
    processConversation data fmtA opts = processConversation data fmtB opts
  ∧ processConversation data fmtA opts = toText data opts :=
  ⟨rfl, rfl⟩
